import Mathlib

/-!
Verification of the indexing and search pipeline of `ocr-screenshot-search`.

The development shallowly embeds the core of the repository:

* `database.py` — the index store backed by a single FTS5 table holding
  `(file_path, extracted_text, indexed_date)` rows.  A database is a list of
  rows; `INSERT` appends, point lookups scan the list, the FTS5 `MATCH ...
  ORDER BY rank LIMIT n` result is an abstract relevance-ranked candidate
  list truncated to `n`.
* `scanner.py` — discovery (`get_all_images`) over an explicit filesystem
  model, and the `scan_and_index` loop.
* `ocr_engine.py` — `extract_text`, parametrised by abstract `open`/`ocr`
  effects returning `Option` (the `try/except` that maps any failure to
  the empty string).

Machine-level string primitives (`endswith`-style glob matching, substring
containment, `str.strip`) are implemented over the underlying character
lists so that every definition evaluates inside the kernel.
-/

namespace OcrScreenshotSearch

/-! ## Character-list string primitives -/

/-- Bool test that `ys` is a suffix of `xs` (Python `str.endswith`). -/
def listSuffix (xs ys : List Char) : Bool :=
  ys == xs.drop (xs.length - ys.length)

/-- `strEndsWith s sfx` is Python `s.endswith(sfx)`. -/
def strEndsWith (s sfx : String) : Bool :=
  listSuffix s.data sfx.data

/-- Bool test that `needle` occurs contiguously inside `hay`. -/
def listContains : List Char → List Char → Bool
  | hay, needle =>
    if needle.length ≤ hay.length then
      (hay.take needle.length == needle) ||
        (match hay with
         | [] => false
         | _ :: t => listContains t needle)
    else false

/-- `strContains hay needle` is Python `needle in hay`. -/
def strContains (hay needle : String) : Bool :=
  listContains hay.data needle.data

/-- Lower-case every character (Python `str.lower`). -/
def strLower (s : String) : String :=
  ⟨s.data.map Char.toLower⟩

/-- Upper-case every character (Python `str.upper`). -/
def strUpper (s : String) : String :=
  ⟨s.data.map Char.toUpper⟩

/-- The characters Python `str.strip()` removes. -/
def isPySpace (c : Char) : Bool :=
  c == ' ' || c == '\t' || c == '\n' || c == '\r' || c == '\x0b' || c == '\x0c'

/-- Python `str.strip()`: drop leading and trailing whitespace. -/
def strTrim (s : String) : String :=
  ⟨((s.data.dropWhile isPySpace).reverse.dropWhile isPySpace).reverse⟩

/-! ## Data model: the `screenshots` FTS5 table (`database.py`) -/

/-- One row of the `screenshots` table. -/
structure Row where
  file_path : String
  extracted_text : String
  indexed_date : String
deriving DecidableEq, Repr

/-- The persistent index: the rows of the `screenshots` table in insertion
order (SQLite rowid order). -/
abbrev DB := List Row

/-- `database.is_indexed`: `SELECT file_path FROM screenshots WHERE
file_path = ?` finds a row. -/
def is_indexed (db : DB) (p : String) : Bool :=
  db.any (fun r => r.file_path == p)

/-- `database.add_screenshot`: `INSERT INTO screenshots ... VALUES (?, ?, ?)`
with `indexed_date = datetime.now().isoformat()`; the current timestamp
string is passed explicitly. -/
def add_screenshot (db : DB) (p text date : String) : DB :=
  db ++ [⟨p, text, date⟩]

/-- `database.get_stats`: `SELECT COUNT(*) FROM screenshots`. -/
def get_stats (db : DB) : Nat :=
  db.length

/-- `database.get_screenshot_text`: point lookup of the stored text,
empty string when absent. -/
def get_screenshot_text (db : DB) (p : String) : String :=
  match db.find? (fun r => r.file_path == p) with
  | some r => r.extracted_text
  | none => ""

/-- `database.delete_missing_files`: walk all rows, delete each row whose
`file_path` no longer exists on disk (the filesystem is the predicate
`fexists`), and count the deletions.  Returns the surviving table and the
count. -/
def delete_missing_files (fexists : String → Bool) : DB → DB × Nat
  | [] => ([], 0)
  | r :: rest =>
    let res := delete_missing_files fexists rest
    if fexists r.file_path then (r :: res.1, res.2) else (res.1, res.2 + 1)

/-! ## Scanner (`scanner.py`) -/

/-- The running state of `scan_and_index`: the database plus the three
counters of its `stats` dict. -/
structure ScanState where
  db : DB
  indexed : Nat
  skipped : Nat
  failed : Nat
deriving DecidableEq, Repr

/-- One iteration of the `scan_and_index` loop body for the file at `p`:
skip when already indexed; otherwise run the extractor, insert the text
(or `""` on empty extraction, so the file is never retried) and bump the
matching counter. -/
def scanStep (extract : String → String) (date : String) (st : ScanState) (p : String) :
    ScanState :=
  if is_indexed st.db p then
    { st with skipped := st.skipped + 1 }
  else
    let text := extract p
    if text ≠ "" then
      { st with db := add_screenshot st.db p text date, indexed := st.indexed + 1 }
    else
      { st with db := add_screenshot st.db p "" date, failed := st.failed + 1 }

/-- `scanner.scan_and_index` run over an already-discovered file list:
fold the loop body over the files starting from zeroed counters. -/
def scan_and_index (extract : String → String) (date : String) (db : DB)
    (files : List String) : ScanState :=
  files.foldl (scanStep extract date) ⟨db, 0, 0, 0⟩

/-! ## Basic scan lemmas -/

theorem is_indexed_append (db : DB) (r : Row) (q : String) :
    is_indexed (db ++ [r]) q = (is_indexed db q || (r.file_path == q)) := by
  simp [is_indexed, List.any_append]

theorem is_indexed_add_screenshot (db : DB) (p text date q : String) :
    is_indexed (add_screenshot db p text date) q = (is_indexed db q || (p == q)) := by
  simp [add_screenshot, is_indexed, List.any_append]

theorem scanStep_mono (extract : String → String) (date : String) (st : ScanState)
    (p q : String) (h : is_indexed st.db q = true) :
    is_indexed (scanStep extract date st p).db q = true := by
  unfold scanStep
  split
  · exact h
  · dsimp only
    split <;> simp [is_indexed_add_screenshot, h]

theorem scanStep_self (extract : String → String) (date : String) (st : ScanState)
    (p : String) : is_indexed (scanStep extract date st p).db p = true := by
  unfold scanStep
  split
  · assumption
  · dsimp only
    split <;> simp [is_indexed_add_screenshot]

theorem scan_fold_mono (extract : String → String) (date : String) :
    ∀ (files : List String) (st : ScanState) (q : String),
      is_indexed st.db q = true →
      is_indexed (files.foldl (scanStep extract date) st).db q = true := by
  intro files
  induction files with
  | nil => intro st q h; exact h
  | cons p rest ih =>
    intro st q h
    exact ih (scanStep extract date st p) q (scanStep_mono extract date st p q h)

theorem scan_fold_indexes (extract : String → String) (date : String) :
    ∀ (files : List String) (st : ScanState) (q : String), q ∈ files →
      is_indexed (files.foldl (scanStep extract date) st).db q = true := by
  intro files
  induction files with
  | nil => intro st q h; cases h
  | cons p rest ih =>
    intro st q h
    rcases List.mem_cons.mp h with h | h
    · subst h
      exact scan_fold_mono extract date rest _ q (scanStep_self extract date st q)
    · exact ih _ q h

theorem scan_fold_all_indexed (extract : String → String) (date : String) :
    ∀ (files : List String) (st : ScanState),
      (∀ q ∈ files, is_indexed st.db q = true) →
      files.foldl (scanStep extract date) st =
        { st with skipped := st.skipped + files.length } := by
  intro files
  induction files with
  | nil => intro st _; simp
  | cons p rest ih =>
    intro st h
    have hp : is_indexed st.db p = true := h p (List.mem_cons_self p rest)
    have hstep : scanStep extract date st p = { st with skipped := st.skipped + 1 } := by
      unfold scanStep
      simp [hp]
    calc (p :: rest).foldl (scanStep extract date) st
        = rest.foldl (scanStep extract date) ({ st with skipped := st.skipped + 1 }) := by
          rw [List.foldl_cons, hstep]
      _ = { st with skipped := st.skipped + 1 + rest.length } := by
          exact ih _ (fun q hq => h q (List.mem_cons_of_mem p hq))
      _ = { st with skipped := st.skipped + (p :: rest).length } := by
          simp [Nat.add_assoc, Nat.add_comm 1]

/-- Claim C1: running `scan_and_index` a second time over the same
discovered file list (no files added, removed, or modified in between,
possibly at a later date and with a different extractor) classifies every
file as skipped — `skipped` equals the number of files, `indexed` and
`failed` are `0` — and inserts no rows, leaving the index contents
unchanged. -/
theorem C1_rescan_all_skipped (e1 e2 : String → String) (d1 d2 : String) (db : DB)
    (files : List String) :
    (scan_and_index e2 d2 (scan_and_index e1 d1 db files).db files).skipped = files.length
    ∧ (scan_and_index e2 d2 (scan_and_index e1 d1 db files).db files).indexed = 0
    ∧ (scan_and_index e2 d2 (scan_and_index e1 d1 db files).db files).failed = 0
    ∧ (scan_and_index e2 d2 (scan_and_index e1 d1 db files).db files).db
        = (scan_and_index e1 d1 db files).db := by
  have hall : ∀ q ∈ files, is_indexed (scan_and_index e1 d1 db files).db q = true :=
    fun q hq => scan_fold_indexes e1 d1 files ⟨db, 0, 0, 0⟩ q hq
  have h := scan_fold_all_indexed e2 d2 files ⟨(scan_and_index e1 d1 db files).db, 0, 0, 0⟩
    (fun q hq => hall q hq)
  unfold scan_and_index at h ⊢
  rw [h]
  simp

/-! ## Closed form of a scan over pairwise-distinct files -/

theorem scan_fold_counter_sum (e : String → String) (d : String) :
    ∀ (files : List String) (st : ScanState),
      (files.foldl (scanStep e d) st).indexed + (files.foldl (scanStep e d) st).skipped
          + (files.foldl (scanStep e d) st).failed
        = st.indexed + st.skipped + st.failed + files.length := by
  intro files
  induction files with
  | nil => intro st; simp
  | cons p rest ih =>
    intro st
    rw [List.foldl_cons]
    rw [ih (scanStep e d st p)]
    unfold scanStep
    split
    · simp; omega
    · dsimp only
      split <;> (simp; omega)

theorem scan_fold_closed (e : String → String) (d : String) :
    ∀ (files : List String) (st : ScanState), files.Nodup →
      files.foldl (scanStep e d) st =
        { db := st.db ++
            (files.filter (fun p => !is_indexed st.db p)).map (fun p => ⟨p, e p, d⟩),
          indexed := st.indexed +
            (files.filter (fun p => !is_indexed st.db p && !(e p == ""))).length,
          skipped := st.skipped +
            (files.filter (fun p => is_indexed st.db p)).length,
          failed := st.failed +
            (files.filter (fun p => !is_indexed st.db p && (e p == ""))).length } := by
  intro files
  induction files with
  | nil => intro st _; simp
  | cons p rest ih =>
    intro st hnd
    have hp : p ∉ rest := (List.nodup_cons.mp hnd).1
    have hrest : rest.Nodup := (List.nodup_cons.mp hnd).2
    rw [List.foldl_cons]
    by_cases hip : is_indexed st.db p = true
    · have hstep : scanStep e d st p = { st with skipped := st.skipped + 1 } := by
        unfold scanStep; simp [hip]
      rw [hstep, ih _ hrest]
      simp [List.filter_cons, hip, Nat.add_assoc, Nat.add_comm 1]
    · have hip' : is_indexed st.db p = false := by simpa using hip
      have hq : ∀ (t : String), ∀ q ∈ rest,
          is_indexed (st.db ++ [⟨p, t, d⟩]) q = is_indexed st.db q := by
        intro t q hqr
        rw [is_indexed_append]
        have hne : (p == q) = false :=
          beq_eq_false_iff_ne.mpr (fun h => hp (h ▸ hqr))
        simp [hne]
      by_cases he : e p = ""
      · have hstep : scanStep e d st p =
            { st with db := st.db ++ [⟨p, "", d⟩], failed := st.failed + 1 } := by
          unfold scanStep; simp [hip', he, add_screenshot]
        rw [hstep, ih _ hrest]
        have h1 : rest.filter (fun q => !is_indexed (st.db ++ [⟨p, "", d⟩]) q)
            = rest.filter (fun q => !is_indexed st.db q) :=
          List.filter_congr (fun q hqr => by rw [hq "" q hqr])
        have h2 : rest.filter (fun q => is_indexed (st.db ++ [⟨p, "", d⟩]) q)
            = rest.filter (fun q => is_indexed st.db q) :=
          List.filter_congr (fun q hqr => by rw [hq "" q hqr])
        have h3 : rest.filter (fun q => !is_indexed (st.db ++ [⟨p, "", d⟩]) q && !(e q == ""))
            = rest.filter (fun q => !is_indexed st.db q && !(e q == "")) :=
          List.filter_congr (fun q hqr => by rw [hq "" q hqr])
        have h4 : rest.filter (fun q => !is_indexed (st.db ++ [⟨p, "", d⟩]) q && (e q == ""))
            = rest.filter (fun q => !is_indexed st.db q && (e q == "")) :=
          List.filter_congr (fun q hqr => by rw [hq "" q hqr])
        simp only [ScanState.mk.injEq, h1, h2, h3, h4]
        refine ⟨?_, ?_, ?_, ?_⟩
        · simp [List.filter_cons, hip', he, List.append_assoc]
        · simp [List.filter_cons, hip', he]
        · simp [List.filter_cons, hip']
        · simp [List.filter_cons, hip', he, Nat.add_assoc, Nat.add_comm 1]
      · have hstep : scanStep e d st p =
            { st with db := st.db ++ [⟨p, e p, d⟩],
                      indexed := st.indexed + 1 } := by
          unfold scanStep; simp [hip', he, add_screenshot]
        rw [hstep, ih _ hrest]
        have h1 : rest.filter (fun q => !is_indexed (st.db ++ [⟨p, e p, d⟩]) q)
            = rest.filter (fun q => !is_indexed st.db q) :=
          List.filter_congr (fun q hqr => by rw [hq (e p) q hqr])
        have h2 : rest.filter (fun q => is_indexed (st.db ++ [⟨p, e p, d⟩]) q)
            = rest.filter (fun q => is_indexed st.db q) :=
          List.filter_congr (fun q hqr => by rw [hq (e p) q hqr])
        have h3 : rest.filter (fun q => !is_indexed (st.db ++ [⟨p, e p, d⟩]) q && !(e q == ""))
            = rest.filter (fun q => !is_indexed st.db q && !(e q == "")) :=
          List.filter_congr (fun q hqr => by rw [hq (e p) q hqr])
        have h4 : rest.filter (fun q => !is_indexed (st.db ++ [⟨p, e p, d⟩]) q && (e q == ""))
            = rest.filter (fun q => !is_indexed st.db q && (e q == "")) :=
          List.filter_congr (fun q hqr => by rw [hq (e p) q hqr])
        simp only [ScanState.mk.injEq, h1, h2, h3, h4]
        refine ⟨?_, ?_, ?_, ?_⟩
        · simp [List.filter_cons, hip', List.append_assoc]
        · simp [List.filter_cons, hip', he, Nat.add_assoc, Nat.add_comm 1]
        · simp [List.filter_cons, hip']
        · simp [List.filter_cons, hip', he]

/-- Claim C3: over a list of pairwise-distinct discovered files, each file
meets exactly one of three outcomes — already indexed (counted in
`skipped`, no extraction, no insert), extracted with non-empty text (row
`(path, text)` inserted, counted in `indexed`), or extracted empty (row
`(path, "")` still inserted so the file is never retried, counted in
`failed`) — and `indexed + skipped + failed` equals the number of
discovered files. -/
theorem C3_scan_trichotomy (e : String → String) (d : String) (db : DB)
    (files : List String) (hnd : files.Nodup) :
    (scan_and_index e d db files).skipped
        = (files.filter (fun p => is_indexed db p)).length
    ∧ (scan_and_index e d db files).indexed
        = (files.filter (fun p => !is_indexed db p && !(e p == ""))).length
    ∧ (scan_and_index e d db files).failed
        = (files.filter (fun p => !is_indexed db p && (e p == ""))).length
    ∧ (scan_and_index e d db files).db
        = db ++ (files.filter (fun p => !is_indexed db p)).map (fun p => ⟨p, e p, d⟩)
    ∧ (scan_and_index e d db files).indexed + (scan_and_index e d db files).skipped
        + (scan_and_index e d db files).failed = files.length := by
  have hclosed := scan_fold_closed e d files ⟨db, 0, 0, 0⟩ hnd
  unfold scan_and_index
  refine ⟨?_, ?_, ?_, ?_, ?_⟩
  · rw [hclosed]; simp
  · rw [hclosed]; simp
  · rw [hclosed]; simp
  · rw [hclosed]
  · simpa using scan_fold_counter_sum e d files ⟨db, 0, 0, 0⟩

/-- Concrete extractor for the C3 witness: empty text for `b`, text
otherwise. -/
def wExtract : String → String := fun p => if p == "b" then "" else "text"

/-- Concrete initial index for the C3 witness: `a` is already indexed. -/
def wDb : DB := [⟨"a", "old text", "2024-01-01T00:00:00"⟩]

/-- Concrete discovered-file list for the C3 witness. -/
def wFiles : List String := ["a", "b", "c"]

theorem C3_scan_trichotomy_witness :
    (scan_and_index wExtract "2024-06-01T12:00:00" wDb wFiles).skipped
        = (wFiles.filter (fun p => is_indexed wDb p)).length
    ∧ (scan_and_index wExtract "2024-06-01T12:00:00" wDb wFiles).indexed
        = (wFiles.filter (fun p => !is_indexed wDb p && !(wExtract p == ""))).length
    ∧ (scan_and_index wExtract "2024-06-01T12:00:00" wDb wFiles).failed
        = (wFiles.filter (fun p => !is_indexed wDb p && (wExtract p == ""))).length
    ∧ (scan_and_index wExtract "2024-06-01T12:00:00" wDb wFiles).db
        = wDb ++ (wFiles.filter (fun p => !is_indexed wDb p)).map
            (fun p => ⟨p, wExtract p, "2024-06-01T12:00:00"⟩)
    ∧ (scan_and_index wExtract "2024-06-01T12:00:00" wDb wFiles).indexed
        + (scan_and_index wExtract "2024-06-01T12:00:00" wDb wFiles).skipped
        + (scan_and_index wExtract "2024-06-01T12:00:00" wDb wFiles).failed
        = wFiles.length :=
  C3_scan_trichotomy wExtract "2024-06-01T12:00:00" wDb wFiles (by decide)

/-! ## The operation sequences of claim C2 -/

/-- `database.delete_missing_files` keeps exactly the rows whose backing
file exists and counts the rest. -/
theorem delete_missing_spec (ex : String → Bool) :
    ∀ db : DB, delete_missing_files ex db =
      (db.filter (fun r => ex r.file_path),
       (db.filter (fun r => !ex r.file_path)).length) := by
  intro db
  induction db with
  | nil => rfl
  | cons r rest ih =>
    unfold delete_missing_files
    rw [ih]
    by_cases h : ex r.file_path = true <;> simp [List.filter_cons, h]

/-- The sequential operations of the application visible to the index:
a scan, a search, the stats query, a stored-text lookup, and the
garbage-collection pass. -/
inductive Op where
  | scanOp (extract : String → String) (date : String) (files : List String)
  | searchOp (q : String) (limit : Nat) (df ff : Option String)
  | statsOp
  | textOp (p : String)
  | gcOp (fexists : String → Bool)

/-- The effect of one operation on the index: `search`, `get_stats` and
`get_screenshot_text` only read; `scan_and_index` and
`delete_missing_files` write. -/
def applyOp (db : DB) : Op → DB
  | Op.scanOp e d files => (scan_and_index e d db files).db
  | Op.searchOp _ _ _ _ => db
  | Op.statsOp => db
  | Op.textOp _ => db
  | Op.gcOp ex => (delete_missing_files ex db).1

/-- Run a sequence of operations starting from the empty index. -/
def runOps (ops : List Op) : DB :=
  ops.foldl applyOp []

theorem is_indexed_eq_false_iff (db : DB) (p : String) :
    is_indexed db p = false ↔ p ∉ db.map Row.file_path := by
  simp only [is_indexed]
  rw [← Bool.not_eq_true, List.any_eq_true]
  simp

theorem scanStep_paths_nodup (e : String → String) (d : String) (st : ScanState)
    (p : String) (h : (st.db.map Row.file_path).Nodup) :
    ((scanStep e d st p).db.map Row.file_path).Nodup := by
  unfold scanStep
  by_cases hip : is_indexed st.db p = true
  · simpa [hip] using h
  · have hip' : is_indexed st.db p = false := by simpa using hip
    have hnotin : p ∉ st.db.map Row.file_path :=
      (is_indexed_eq_false_iff st.db p).mp hip'
    have key : ∀ t : String, ((st.db ++ [(⟨p, t, d⟩ : Row)]).map Row.file_path).Nodup := by
      intro t
      rw [List.map_append, List.nodup_append]
      refine ⟨h, by simp, ?_⟩
      intro q hq hq2
      simp only [List.map_cons, List.map_nil, List.mem_singleton] at hq2
      exact hnotin (hq2 ▸ hq)
    simp only [hip', Bool.false_eq_true, if_false]
    split
    · simpa [add_screenshot] using key (e p)
    · simpa [add_screenshot] using key ""

theorem scan_fold_paths_nodup (e : String → String) (d : String) :
    ∀ (files : List String) (st : ScanState),
      (st.db.map Row.file_path).Nodup →
      ((files.foldl (scanStep e d) st).db.map Row.file_path).Nodup := by
  intro files
  induction files with
  | nil => intro st h; exact h
  | cons p rest ih =>
    intro st h
    exact ih _ (scanStep_paths_nodup e d st p h)

theorem applyOp_paths_nodup (db : DB) (op : Op)
    (h : (db.map Row.file_path).Nodup) :
    ((applyOp db op).map Row.file_path).Nodup := by
  cases op with
  | scanOp e d files => exact scan_fold_paths_nodup e d files ⟨db, 0, 0, 0⟩ h
  | searchOp q limit df ff => exact h
  | statsOp => exact h
  | textOp p => exact h
  | gcOp ex =>
    simp only [applyOp, delete_missing_spec]
    exact ((List.filter_sublist db).map Row.file_path).nodup h

/-- Claim C2: starting from an empty index, after any sequence of
sequential `scan_and_index`, `search`, `get_stats`,
`get_screenshot_text` and `delete_missing_files` operations, no two rows
of the index share a `file_path` — the scanner inserts a path only after
`is_indexed` returned `false` for it in the same iteration, and no other
operation inserts rows. -/
theorem C2_unique_file_paths (ops : List Op) :
    ((runOps ops).map Row.file_path).Nodup := by
  have haux : ∀ (ops : List Op) (db : DB), (db.map Row.file_path).Nodup →
      ((ops.foldl applyOp db).map Row.file_path).Nodup := by
    intro ops
    induction ops with
    | nil => intro db h; exact h
    | cons op rest ih =>
      intro db h
      exact ih _ (applyOp_paths_nodup db op h)
  exact haux ops [] (by simp)

/-! ## Garbage collection (claim C8) -/

theorem db_length_split (ex : String → Bool) (db : DB) :
    (db.filter (fun r => ex r.file_path)).length
      + (db.filter (fun r => !ex r.file_path)).length = db.length := by
  induction db with
  | nil => rfl
  | cons r rest ih =>
    by_cases h : ex r.file_path = true <;> simp [List.filter_cons, h] <;> omega

/-- Claim C8: `delete_missing_files` keeps exactly the rows whose
`file_path` still resolves to an existing file (each kept row unchanged,
in order), returns the number of removed rows — those whose backing file
is absent — and the `get_stats` entry count decreases by exactly that
number. -/
theorem C8_gc_exact (ex : String → Bool) (db : DB) :
    (delete_missing_files ex db).1 = db.filter (fun r => ex r.file_path)
    ∧ (delete_missing_files ex db).2
        = (db.filter (fun r => !ex r.file_path)).length
    ∧ get_stats (delete_missing_files ex db).1
        = get_stats db - (delete_missing_files ex db).2 := by
  rw [delete_missing_spec]
  refine ⟨rfl, rfl, ?_⟩
  simp only [get_stats]
  have h := db_length_split ex db
  omega

/-! ## Search (`database.search`) -/

/-- One candidate row as fetched by the `MATCH ... ORDER BY rank LIMIT ?`
query: the three stored columns plus the generated snippet. -/
structure Candidate where
  file_path : String
  extracted_text : String
  snippet : String
  indexed_date : String
deriving DecidableEq, Repr

/-- One element of the result list `search` builds (the dict with
`file_path`, `extracted_text` and `snippet`). -/
structure SearchResult where
  file_path : String
  extracted_text : String
  snippet : String
deriving DecidableEq, Repr

/-- The dict appended to `results` for an accepted candidate row. -/
def toResult (c : Candidate) : SearchResult :=
  ⟨c.file_path, c.extracted_text, c.snippet⟩

/-- The wall clock at the moment `search` runs, in seconds:
`datetime.now()` and the start of the current calendar day
(`now.replace(hour=0, minute=0, second=0, microsecond=0)`). -/
structure Clock where
  now : Int
  startOfToday : Int
deriving DecidableEq, Repr

/-- Seconds per day, the unit of `timedelta(days=n)`. -/
def secondsPerDay : Int := 86400

/-- The `date_threshold` computation of `database.search`: `None` (and any
string other than the four recognised filters, including the falsy empty
string) disables date filtering. -/
def dateThreshold (clock : Clock) : Option String → Option Int
  | none => none
  | some df =>
    if df = "today" then some clock.startOfToday
    else if df = "week" then some (clock.now - 7 * secondsPerDay)
    else if df = "month" then some (clock.now - 30 * secondsPerDay)
    else if df = "year" then some (clock.now - 365 * secondsPerDay)
    else none

/-- The folder-filter test of the `search` loop: `if folder_filter and
folder_filter != "All Folders": if folder_filter not in file_path:
continue` — `None` and the falsy `""` disable it, as does the sentinel
`"All Folders"`. -/
def folderKeep (ff : Option String) (path : String) : Bool :=
  match ff with
  | none => true
  | some f =>
    if f = "" then true
    else if f = "All Folders" then true
    else strContains path f

/-- The date-filter test of the `search` loop: with a threshold set, parse
`indexed_date` (`datetime.fromisoformat` raising maps to `none`) and skip
the row only when it parses strictly earlier than the threshold; a parse
failure keeps the row. -/
def dateKeep (parse : String → Option Int) (thr : Option Int) (d : String) : Bool :=
  match thr with
  | none => true
  | some t =>
    match parse d with
    | some v => !decide (v < t)
    | none => true

/-- The whole accept predicate of one `search` loop iteration. -/
def acceptCand (parse : String → Option Int) (thr : Option Int) (ff : Option String)
    (c : Candidate) : Bool :=
  folderKeep ff c.file_path && dateKeep parse thr c.indexed_date

/-- The `for row in cursor.fetchall()` loop of `search`: accepted rows are
appended and the loop breaks once `len(results) >= limit` (checked after
the append, as in the source). -/
def searchLoop (accept : Candidate → Bool) (limit : Nat) :
    List Candidate → List SearchResult → List SearchResult
  | [], acc => acc
  | c :: rest, acc =>
    if accept c then
      if limit ≤ (acc ++ [toResult c]).length then acc ++ [toResult c]
      else searchLoop accept limit rest (acc ++ [toResult c])
    else searchLoop accept limit rest acc

/-- `database.search` over the relevance-ranked row list `candidates`
returned by the FTS5 MATCH (best first): the SQL `LIMIT limit * 10`
truncates the candidates, then the Python loop filters and caps. -/
def search (parse : String → Option Int) (clock : Clock) (candidates : List Candidate)
    (limit : Nat) (df ff : Option String) : List SearchResult :=
  searchLoop (acceptCand parse (dateThreshold clock df) ff) limit
    (candidates.take (limit * 10)) []

theorem searchLoop_eq (accept : Candidate → Bool) (limit : Nat) :
    ∀ (cs : List Candidate) (acc : List SearchResult), acc.length < limit →
      searchLoop accept limit cs acc
        = acc ++ ((cs.filter accept).map toResult).take (limit - acc.length) := by
  intro cs
  induction cs with
  | nil => intro acc h; simp [searchLoop]
  | cons c rest ih =>
    intro acc h
    unfold searchLoop
    by_cases hc : accept c = true
    · simp only [hc, if_true]
      by_cases hl : limit ≤ (acc ++ [toResult c]).length
      · have hlim : limit - acc.length = 1 := by
          simp only [List.length_append, List.length_cons, List.length_nil] at hl
          omega
        rw [if_pos hl]
        simp [List.filter_cons, hc, hlim]
      · have hlt : (acc ++ [toResult c]).length < limit := Nat.lt_of_not_le hl
        rw [if_neg hl, ih _ hlt]
        have hsplit : limit - acc.length = (limit - (acc ++ [toResult c]).length) + 1 := by
          simp only [List.length_append, List.length_cons, List.length_nil] at hlt ⊢
          omega
        simp [List.filter_cons, hc, hsplit, List.take_succ_cons, List.append_assoc]
    · have hc' : accept c = false := by simpa using hc
      rw [if_neg (by simp [hc'])]
      rw [ih _ h]
      simp [List.filter_cons, hc']

theorem search_spec (parse : String → Option Int) (clock : Clock)
    (candidates : List Candidate) (limit : Nat) (df ff : Option String) :
    search parse clock candidates limit df ff
      = (((candidates.take (limit * 10)).filter
            (acceptCand parse (dateThreshold clock df) ff)).map toResult).take limit := by
  unfold search
  rcases Nat.eq_zero_or_pos limit with h0 | hpos
  · subst h0
    simp [searchLoop]
  · rw [searchLoop_eq _ _ _ [] (by simpa using hpos)]
    simp

/-- Claim C4: `search` fetches at most `limit * 10` relevance-ranked
candidates, accepts in rank order exactly the fetched candidates passing
the folder and date filters, stops at `limit` accepted results, and the
returned list (of length at most `limit`) is a sublist of the candidate
list mapped to results — filtering never re-ranks. -/
theorem C4_search_overfetch_filter_cap (parse : String → Option Int) (clock : Clock)
    (candidates : List Candidate) (limit : Nat) (df ff : Option String) :
    (candidates.take (limit * 10)).length ≤ limit * 10
    ∧ search parse clock candidates limit df ff
        = (((candidates.take (limit * 10)).filter
              (acceptCand parse (dateThreshold clock df) ff)).map toResult).take limit
    ∧ (search parse clock candidates limit df ff).length ≤ limit
    ∧ (search parse clock candidates limit df ff).Sublist (candidates.map toResult) := by
  refine ⟨List.length_take_le _ _, search_spec parse clock candidates limit df ff, ?_, ?_⟩
  · rw [search_spec]
    exact List.length_take_le _ _
  · rw [search_spec]
    refine List.Sublist.trans (List.take_sublist _ _) ?_
    refine List.Sublist.trans (List.Sublist.map toResult (List.filter_sublist _)) ?_
    exact List.Sublist.map toResult (List.take_sublist _ _)

/-- Claim C5: with a date filter set, `search` uses the threshold — start
of the current day for `today`, now minus 7/30/365 days for
`week`/`month`/`year` — and (with no folder filter) a candidate is
excluded exactly when its `indexed_date` parses strictly earlier than the
threshold; a row stamped exactly at the threshold (midnight under
`today`) is kept, one stamped one second before midnight is excluded
under `today`, and one whose timestamp fails to parse is always kept. -/
theorem C5_date_filter_semantics (parse : String → Option Int) (clock : Clock)
    (t : Int) (c : Candidate) :
    dateThreshold clock (some "today") = some clock.startOfToday
    ∧ dateThreshold clock (some "week") = some (clock.now - 7 * secondsPerDay)
    ∧ dateThreshold clock (some "month") = some (clock.now - 30 * secondsPerDay)
    ∧ dateThreshold clock (some "year") = some (clock.now - 365 * secondsPerDay)
    ∧ acceptCand parse (some t) none c = dateKeep parse (some t) c.indexed_date
    ∧ (dateKeep parse (some t) c.indexed_date = false
        ↔ ∃ v, parse c.indexed_date = some v ∧ v < t)
    ∧ (parse c.indexed_date = some clock.startOfToday →
        dateKeep parse (dateThreshold clock (some "today")) c.indexed_date = true)
    ∧ (parse c.indexed_date = some (clock.startOfToday - 1) →
        dateKeep parse (dateThreshold clock (some "today")) c.indexed_date = false)
    ∧ (parse c.indexed_date = none → dateKeep parse (some t) c.indexed_date = true) := by
  refine ⟨by simp [dateThreshold], by simp [dateThreshold], by simp [dateThreshold],
    by simp [dateThreshold], by simp [acceptCand, folderKeep], ?_, ?_, ?_, ?_⟩
  · cases hparse : parse c.indexed_date with
    | none => simp [dateKeep, hparse]
    | some v => simp [dateKeep, hparse]
  · intro hparse
    simp [dateThreshold, dateKeep, hparse]
  · intro hparse
    simp [dateThreshold, dateKeep, hparse]
  · intro hparse
    simp [dateKeep, hparse]

/-! ## Folder filtering (claim C6) -/

theorem strContains_empty_needle (s : String) : strContains s "" = true := by
  unfold strContains listContains
  simp

theorem folderKeep_eq_strContains (f : String) (hf : f ≠ "All Folders") (path : String) :
    folderKeep (some f) path = strContains path f := by
  unfold folderKeep
  by_cases h0 : f = ""
  · subst h0
    simp [strContains_empty_needle]
  · simp [h0, hf]

/-- Concrete candidate for claims C6 and C10: its path does not mention
the sentinel folder label. -/
def cexCand : Candidate :=
  ⟨"/shots/2024/03/a.png", "invoice total", ">>>invoice<<< total",
    "2024-03-05T10:00:00"⟩

theorem C6_folder_filter_counterexample :
    strContains cexCand.file_path "All Folders" = false
    ∧ search (fun _ => none) ⟨0, 0⟩ [cexCand] 10 none (some "All Folders")
        = [toResult cexCand] := by
  constructor
  · decide
  · decide

/-- Claim C6 (amended): for every set `folder_filter` other than the
sentinel `"All Folders"`, `search` skips exactly the candidates whose
`file_path` does not contain the filter as a substring, and accepts the
rest subject only to the date filter and the `limit` cap; every returned
result's path contains the filter. (`folder_filter = "All Folders"`
disables folder filtering, refuting the claim as stated.) -/
theorem C6_folder_filter_amended (parse : String → Option Int) (clock : Clock)
    (candidates : List Candidate) (limit : Nat) (df : Option String) (f : String)
    (hf : f ≠ "All Folders") :
    search parse clock candidates limit df (some f)
        = (((candidates.take (limit * 10)).filter
              (fun c => strContains c.file_path f
                && dateKeep parse (dateThreshold clock df) c.indexed_date)).map
            toResult).take limit
    ∧ ∀ r ∈ search parse clock candidates limit df (some f),
        strContains r.file_path f = true := by
  have hpred : ∀ c : Candidate,
      acceptCand parse (dateThreshold clock df) (some f) c
        = (strContains c.file_path f
            && dateKeep parse (dateThreshold clock df) c.indexed_date) := by
    intro c
    unfold acceptCand
    rw [folderKeep_eq_strContains f hf]
  have h1 : search parse clock candidates limit df (some f)
      = (((candidates.take (limit * 10)).filter
            (fun c => strContains c.file_path f
              && dateKeep parse (dateThreshold clock df) c.indexed_date)).map
          toResult).take limit := by
    rw [search_spec]
    rw [List.filter_congr (fun c _ => hpred c)]
  refine ⟨h1, ?_⟩
  intro r hr
  rw [h1] at hr
  have hr2 := (List.take_sublist _ _).subset hr
  obtain ⟨c, hcmem, rfl⟩ := List.mem_map.mp hr2
  have hand := (List.mem_filter.mp hcmem).2
  rw [Bool.and_eq_true] at hand
  exact hand.1

theorem C6_folder_filter_witness :
    search (fun _ => none) ⟨0, 0⟩ [cexCand] 10 none (some "2024/03")
        = (((([cexCand] : List Candidate).take (10 * 10)).filter
              (fun c => strContains c.file_path "2024/03"
                && dateKeep (fun _ => none) (dateThreshold ⟨0, 0⟩ none) c.indexed_date)).map
            toResult).take 10
    ∧ ∀ r ∈ search (fun _ => none) ⟨0, 0⟩ [cexCand] 10 none (some "2024/03"),
        strContains r.file_path "2024/03" = true :=
  C6_folder_filter_amended (fun _ => none) ⟨0, 0⟩ [cexCand] 10 none "2024/03" (by decide)

/-! ## Unsanitized MATCH patterns (claim C10) -/

/-- A MATCH pattern with an odd number of double quotes has an unbalanced
string token. -/
def fts5UnbalancedQuote (q : String) : Bool :=
  (q.data.count '"') % 2 == 1

/-- Modelled from the SQLite FTS5 documentation (the full-text engine is
an external dependency, not repository code): executing `... WHERE
screenshots MATCH ? ORDER BY rank LIMIT ?` either raises
`sqlite3.OperationalError` ("fts5: syntax error") on a malformed query
string — an unbalanced double quote is such a syntax error — or returns
the engine's relevance-ranked rows, abstracted as `engine`. -/
def ftsMatch (engine : String → List Candidate) (q : String) :
    Except String (List Candidate) :=
  if fts5UnbalancedQuote q then Except.error "fts5: syntax error"
  else Except.ok (engine q)

/-- `database.search` with the fallible FTS5 MATCH step explicit: the
user's query string is passed verbatim as the MATCH pattern, an engine
error propagates (`search` has no try/except), and on success the filter
loop runs on the fetched rows. -/
def searchExc (engine : String → List Candidate) (parse : String → Option Int)
    (clock : Clock) (q : String) (limit : Nat) (df ff : Option String) :
    Except String (List SearchResult) :=
  match ftsMatch engine q with
  | Except.error err => Except.error err
  | Except.ok rows =>
      Except.ok (searchLoop (acceptCand parse (dateThreshold clock df) ff) limit
        (rows.take (limit * 10)) [])

/-- Claim C10: the query string reaches the FTS5 MATCH unsanitized, so
there is a non-empty, non-whitespace query — a lone double quote — on
which `search` raises instead of returning a result list, whatever the
engine, clock, parser, limit and filters are. -/
theorem C10_unsanitized_query_raises :
    ∃ q : String, q ≠ "" ∧ strTrim q ≠ "" ∧
      ∀ (engine : String → List Candidate) (parse : String → Option Int)
        (clock : Clock) (limit : Nat) (df ff : Option String),
        searchExc engine parse clock q limit df ff
          = Except.error "fts5: syntax error" := by
  refine ⟨"\"", by decide, by decide, ?_⟩
  intro engine parse clock limit df ff
  unfold searchExc ftsMatch
  have hq : fts5UnbalancedQuote "\"" = true := by decide
  rw [hq]
  simp

/-! ## OCR extraction (`ocr_engine.extract_text`, claim C9) -/

/-- A PIL image as relevant to `extract_text`: its color mode string and
an opaque pixel payload. -/
structure PILImage where
  mode : String
  content : Nat
deriving DecidableEq, Repr

/-- `image.convert('RGB')`: the result is a plain three-channel image. -/
def convertRGB (img : PILImage) : PILImage :=
  { img with mode := "RGB" }

/-- The mode normalization of `extract_text`: `if image.mode in
('RGBA', 'P'): image = image.convert('RGB')`. -/
def normalizeMode (img : PILImage) : PILImage :=
  if img.mode = "RGBA" ∨ img.mode = "P" then convertRGB img else img

/-- `ocr_engine.extract_text`, parametrised by the two fallible effects
its `try` block wraps — `Image.open` and `pytesseract.image_to_string`
(`none` is a raised exception, mapped to `""` by the `except`); on
success the OCR text is returned stripped of surrounding whitespace. -/
def extract_text (openImg : String → Option PILImage) (ocr : PILImage → Option String)
    (path : String) : String :=
  match openImg path with
  | none => ""
  | some img =>
    match ocr (normalizeMode img) with
    | none => ""
    | some t => strTrim t

/-- Modelled from the Pillow documentation (external library): the color
modes carrying an alpha channel (`RGBA`, `RGBa`, `LA`, `La`, `PA`) or a
palette (`P`, `PA`). -/
def modeHasAlphaOrPalette (m : String) : Bool :=
  m == "RGBA" || m == "RGBa" || m == "LA" || m == "La" || m == "PA" || m == "P"

theorem C9_extract_counterexample :
    modeHasAlphaOrPalette "LA" = true
    ∧ normalizeMode ⟨"LA", 0⟩ = ⟨"LA", 0⟩
    ∧ extract_text (fun _ => some ⟨"LA", 0⟩) (fun img => some img.mode) "shot.png" = "LA"
    ∧ ("LA" : String) ≠ "RGB" := by
  refine ⟨by decide, by decide, by decide, by decide⟩

/-- Claim C9 (amended): for every image path, `extract_text` returns the
OCR output with surrounding whitespace trimmed, after converting any
image whose color mode is `RGBA` or palette (`P`) — not every
alpha-or-palette mode: `LA`, `La`, `PA` and `RGBa` pass through
unconverted — to plain three-channel `RGB` before recognition; on any
failure of opening or recognition it returns the empty string rather
than raising. -/
theorem C9_extract_amended (openImg : String → Option PILImage)
    (ocr : PILImage → Option String) (path : String) (img : PILImage) (t : String) :
    (openImg path = none → extract_text openImg ocr path = "")
    ∧ (openImg path = some img → ocr (normalizeMode img) = none →
        extract_text openImg ocr path = "")
    ∧ (openImg path = some img → ocr (normalizeMode img) = some t →
        extract_text openImg ocr path = strTrim t)
    ∧ ((img.mode = "RGBA" ∨ img.mode = "P") → normalizeMode img = convertRGB img)
    ∧ (¬(img.mode = "RGBA" ∨ img.mode = "P") → normalizeMode img = img)
    ∧ (normalizeMode img).mode
        = (if img.mode = "RGBA" ∨ img.mode = "P" then "RGB" else img.mode) := by
  refine ⟨?_, ?_, ?_, ?_, ?_, ?_⟩
  · intro h
    simp [extract_text, h]
  · intro h1 h2
    simp [extract_text, h1, h2]
  · intro h1 h2
    simp [extract_text, h1, h2]
  · intro h
    simp [normalizeMode, h]
  · intro h
    simp [normalizeMode, h]
  · by_cases h : img.mode = "RGBA" ∨ img.mode = "P" <;>
      simp [normalizeMode, convertRGB, h]

/-! ## File discovery (`scanner.get_all_images`, claim C7) -/

/-- A file on disk: its final name component, its full path (the identity
of the file on the platform), and its modification time in seconds. -/
structure FSFile where
  name : String
  path : String
  mtime : Int
deriving DecidableEq, Repr

/-- The folder tree `get_all_images` scans: its files, plus whether the
platform matches glob patterns case-insensitively (`pathlib.rglob`
matches case-insensitively on Windows and case-sensitively on POSIX). -/
structure FileSystem where
  files : List FSFile
  caseInsensitive : Bool

/-- `scanner.IMAGE_EXTENSIONS`. -/
def IMAGE_EXTENSIONS : List String :=
  [".png", ".jpg", ".jpeg", ".gif", ".bmp", ".webp"]

/-- Whether `folder.rglob("*" + sfx)` matches a file name: the name ends
with `sfx`, compared case-insensitively on a case-insensitive platform. -/
def globSuffixMatch (ci : Bool) (sfx name : String) : Bool :=
  if ci then strEndsWith (strLower name) (strLower sfx) else strEndsWith name sfx

/-- `folder.rglob("*" + sfx)` over the modelled tree. -/
def rglobImages (fs : FileSystem) (sfx : String) : List FSFile :=
  fs.files.filter (fun f => globSuffixMatch fs.caseInsensitive sfx f.name)

/-- The `images` list of `get_all_images`: for each extension, glob the
lower-case pattern and then the upper-case pattern, accumulating. -/
def globAllImages (fs : FileSystem) : List FSFile :=
  IMAGE_EXTENSIONS.foldl
    (fun acc ext => acc ++ rglobImages fs ext ++ rglobImages fs (strUpper ext)) []

/-- Helper for `list(set(images))`: keep the first occurrence of each
path, remembering the paths already seen. -/
def dedupByPathAux (seen : List String) : List FSFile → List FSFile
  | [] => []
  | f :: rest =>
    if seen.contains f.path then dedupByPathAux seen rest
    else f :: dedupByPathAux (f.path :: seen) rest

/-- `list(set(images))`: one entry per distinct path. -/
def dedupByPath (l : List FSFile) : List FSFile :=
  dedupByPathAux [] l

/-- Insert into a list sorted by modification time descending. -/
def insertByMtimeDesc (f : FSFile) : List FSFile → List FSFile
  | [] => [f]
  | g :: rest =>
    if g.mtime ≤ f.mtime then f :: g :: rest else g :: insertByMtimeDesc f rest

/-- `sorted(unique_images, key=lambda p: p.stat().st_mtime, reverse=True)`. -/
def sortByMtimeDesc : List FSFile → List FSFile
  | [] => []
  | f :: rest => insertByMtimeDesc f (sortByMtimeDesc rest)

/-- `scanner.get_all_images`: glob every extension in lower and upper
case, deduplicate, and order newest-first. -/
def get_all_images (fs : FileSystem) : List FSFile :=
  sortByMtimeDesc (dedupByPath (globAllImages fs))

/-- A name carries one of the allowed image extensions the way
`get_all_images` globs them: the lower-case or the upper-case variant,
case-folded when the platform is case-insensitive. -/
def matchesImageExt (ci : Bool) (name : String) : Bool :=
  IMAGE_EXTENSIONS.any
    (fun e => globSuffixMatch ci e name || globSuffixMatch ci (strUpper e) name)

/-! ### Discovery lemmas -/

theorem mem_glob_fold (fs : FileSystem) :
    ∀ (exts : List String) (acc : List FSFile) (f : FSFile),
      (f ∈ exts.foldl
          (fun acc ext => acc ++ rglobImages fs ext ++ rglobImages fs (strUpper ext)) acc)
      ↔ f ∈ acc ∨ (f ∈ fs.files ∧ ∃ e ∈ exts,
          (globSuffixMatch fs.caseInsensitive e f.name
            || globSuffixMatch fs.caseInsensitive (strUpper e) f.name) = true) := by
  intro exts
  induction exts with
  | nil => intro acc f; simp
  | cons e rest ih =>
    intro acc f
    rw [List.foldl_cons, ih]
    simp only [rglobImages, List.mem_append, List.mem_filter, List.mem_cons,
      Bool.or_eq_true]
    constructor
    · rintro (((h | h) | h) | h)
      · exact Or.inl h
      · exact Or.inr ⟨h.1, e, Or.inl rfl, Or.inl h.2⟩
      · exact Or.inr ⟨h.1, e, Or.inl rfl, Or.inr h.2⟩
      · obtain ⟨hf, e2, he2, hm⟩ := h
        exact Or.inr ⟨hf, e2, Or.inr he2, hm⟩
    · rintro (h | ⟨hf, e2, (rfl | he2), hm⟩)
      · exact Or.inl (Or.inl (Or.inl h))
      · rcases hm with hm | hm
        · exact Or.inl (Or.inl (Or.inr ⟨hf, hm⟩))
        · exact Or.inl (Or.inr ⟨hf, hm⟩)
      · exact Or.inr ⟨hf, e2, he2, hm⟩

theorem mem_globAllImages (fs : FileSystem) (f : FSFile) :
    f ∈ globAllImages fs
      ↔ f ∈ fs.files ∧ matchesImageExt fs.caseInsensitive f.name = true := by
  unfold globAllImages matchesImageExt
  rw [mem_glob_fold]
  simp [List.any_eq_true]

theorem dedupByPathAux_subset :
    ∀ (l : List FSFile) (seen : List String) (f : FSFile),
      f ∈ dedupByPathAux seen l → f ∈ l := by
  intro l
  induction l with
  | nil => intro seen f h; cases h
  | cons g rest ih =>
    intro seen f h
    unfold dedupByPathAux at h
    by_cases hg : seen.contains g.path = true
    · rw [if_pos hg] at h
      exact List.mem_cons_of_mem g (ih seen f h)
    · rw [if_neg hg] at h
      rcases List.mem_cons.mp h with rfl | h
      · exact List.mem_cons_self _ _
      · exact List.mem_cons_of_mem g (ih _ f h)

theorem dedupByPathAux_paths :
    ∀ (l : List FSFile) (seen : List String),
      ((dedupByPathAux seen l).map FSFile.path).Nodup
      ∧ ∀ p ∈ (dedupByPathAux seen l).map FSFile.path, seen.contains p = false := by
  intro l
  induction l with
  | nil => intro seen; simp [dedupByPathAux]
  | cons g rest ih =>
    intro seen
    unfold dedupByPathAux
    by_cases hg : seen.contains g.path = true
    · rw [if_pos hg]
      exact ih seen
    · rw [if_neg hg]
      obtain ⟨hnd, hout⟩ := ih (g.path :: seen)
      refine ⟨?_, ?_⟩
      · rw [List.map_cons, List.nodup_cons]
        refine ⟨?_, hnd⟩
        intro hmem
        have := hout g.path hmem
        simp at this
      · intro p hp
        rw [List.map_cons, List.mem_cons] at hp
        rcases hp with rfl | hp
        · simpa using hg
        · have := hout p hp
          simp at this
          simpa using this.2

theorem dedupByPathAux_mem_of :
    ∀ (l : List FSFile) (seen : List String),
      (∀ a ∈ l, ∀ b ∈ l, a.path = b.path → a = b) →
      ∀ f ∈ l, seen.contains f.path = false → f ∈ dedupByPathAux seen l := by
  intro l
  induction l with
  | nil => intro seen _ f h; cases h
  | cons g rest ih =>
    intro seen hinj f hf hseen
    have hseen2 : f.path ∉ seen := by simpa using hseen
    have hinj2 : ∀ a ∈ rest, ∀ b ∈ rest, a.path = b.path → a = b :=
      fun a ha b hb => hinj a (List.mem_cons_of_mem g ha) b (List.mem_cons_of_mem g hb)
    unfold dedupByPathAux
    rcases List.mem_cons.mp hf with rfl | hf
    · rw [if_neg (by simpa using hseen2)]
      exact List.mem_cons_self _ _
    · by_cases hg : seen.contains g.path = true
      · rw [if_pos hg]
        exact ih seen hinj2 f hf hseen
      · rw [if_neg hg]
        by_cases hpath : f.path = g.path
        · have : f = g := hinj f (List.mem_cons_of_mem g hf) g (List.mem_cons_self g rest) hpath
          subst this
          exact List.mem_cons_self _ _
        · refine List.mem_cons_of_mem g (ih (g.path :: seen) hinj2 f hf ?_)
          simp [hseen2, hpath]

theorem mem_insertByMtimeDesc (f x : FSFile) :
    ∀ l, x ∈ insertByMtimeDesc f l ↔ x = f ∨ x ∈ l := by
  intro l
  induction l with
  | nil => simp [insertByMtimeDesc]
  | cons g rest ih =>
    unfold insertByMtimeDesc
    by_cases hle : g.mtime ≤ f.mtime
    · rw [if_pos hle]
      simp
    · rw [if_neg hle]
      simp [ih]
      tauto

theorem insertByMtimeDesc_perm (f : FSFile) :
    ∀ l, (insertByMtimeDesc f l).Perm (f :: l) := by
  intro l
  induction l with
  | nil => simp [insertByMtimeDesc]
  | cons g rest ih =>
    unfold insertByMtimeDesc
    by_cases hle : g.mtime ≤ f.mtime
    · rw [if_pos hle]
    · rw [if_neg hle]
      exact List.Perm.trans (ih.cons g) (List.Perm.swap f g rest)

theorem pairwise_insertByMtimeDesc (f : FSFile) :
    ∀ l, List.Pairwise (fun a b => b.mtime ≤ a.mtime) l →
      List.Pairwise (fun a b => b.mtime ≤ a.mtime) (insertByMtimeDesc f l) := by
  intro l
  induction l with
  | nil => intro _; simp [insertByMtimeDesc]
  | cons g rest ih =>
    intro h
    rcases List.pairwise_cons.mp h with ⟨hg, hrest⟩
    unfold insertByMtimeDesc
    by_cases hle : g.mtime ≤ f.mtime
    · rw [if_pos hle]
      refine List.pairwise_cons.mpr ⟨?_, h⟩
      intro x hx
      rcases List.mem_cons.mp hx with rfl | hx
      · exact hle
      · exact le_trans (hg x hx) hle
    · rw [if_neg hle]
      refine List.pairwise_cons.mpr ⟨?_, ih hrest⟩
      intro x hx
      rcases (mem_insertByMtimeDesc f x rest).mp hx with rfl | hx
      · exact le_of_lt (lt_of_not_le hle)
      · exact hg x hx

theorem sortByMtimeDesc_perm : ∀ l, (sortByMtimeDesc l).Perm l := by
  intro l
  induction l with
  | nil => simp [sortByMtimeDesc]
  | cons f rest ih =>
    unfold sortByMtimeDesc
    exact List.Perm.trans (insertByMtimeDesc_perm f (sortByMtimeDesc rest)) (ih.cons f)

theorem sortByMtimeDesc_pairwise :
    ∀ l, List.Pairwise (fun a b => b.mtime ≤ a.mtime) (sortByMtimeDesc l) := by
  intro l
  induction l with
  | nil => simp [sortByMtimeDesc]
  | cons f rest ih =>
    unfold sortByMtimeDesc
    exact pairwise_insertByMtimeDesc f (sortByMtimeDesc rest) ih

/-! ### Claim C7 -/

/-- Concrete file whose extension matches the allow-list only
case-insensitively. -/
def mixedCaseFile : FSFile := ⟨"a.Png", "/shots/a.Png", 0⟩

/-- A case-sensitive (POSIX) filesystem holding only `mixedCaseFile`. -/
def caseSensitiveFS : FileSystem := ⟨[mixedCaseFile], false⟩

theorem C7_discovery_counterexample :
    strEndsWith (strLower mixedCaseFile.name) ".png" = true
    ∧ mixedCaseFile ∈ caseSensitiveFS.files
    ∧ get_all_images caseSensitiveFS = [] := by
  refine ⟨by decide, by decide, by decide⟩

/-- Claim C7 (amended): over a filesystem whose files have pairwise
distinct paths, `get_all_images` returns exactly the files whose name
ends with one of the allowed extensions the way the two glob passes
match them — case-insensitively on a case-insensitive platform, but on a
case-sensitive platform only the all-lowercase and all-uppercase
variants (`.png`, `.PNG`), so a mixed-case `.Png` is not discovered —
with one entry per path and ordered by modification time descending. -/
theorem C7_discovery_amended (fs : FileSystem)
    (hfs : (fs.files.map FSFile.path).Nodup) :
    (∀ f, f ∈ get_all_images fs
        ↔ f ∈ fs.files ∧ matchesImageExt fs.caseInsensitive f.name = true)
    ∧ List.Pairwise (fun a b => b.mtime ≤ a.mtime) (get_all_images fs)
    ∧ ((get_all_images fs).map FSFile.path).Nodup := by
  have hinj : ∀ a ∈ globAllImages fs, ∀ b ∈ globAllImages fs, a.path = b.path → a = b := by
    intro a ha b hb hab
    have ha2 : a ∈ fs.files := ((mem_globAllImages fs a).mp ha).1
    have hb2 : b ∈ fs.files := ((mem_globAllImages fs b).mp hb).1
    exact List.inj_on_of_nodup_map hfs ha2 hb2 hab
  have hperm : (get_all_images fs).Perm (dedupByPath (globAllImages fs)) :=
    sortByMtimeDesc_perm _
  refine ⟨?_, sortByMtimeDesc_pairwise _, ?_⟩
  · intro f
    rw [← mem_globAllImages]
    rw [hperm.mem_iff]
    constructor
    · intro h
      exact dedupByPathAux_subset _ [] f h
    · intro h
      exact dedupByPathAux_mem_of _ [] hinj f h (by simp)
  · have hnd : ((dedupByPath (globAllImages fs)).map FSFile.path).Nodup :=
      (dedupByPathAux_paths (globAllImages fs) []).1
    exact hnd.perm (hperm.map FSFile.path).symm

/-- Concrete case-insensitive (Windows-like) filesystem for the C7
witness: two images with distinct mtimes and one non-image. -/
def ciFS : FileSystem :=
  ⟨[⟨"b.PNG", "/s/2024/b.PNG", 5⟩, ⟨"a.png", "/s/2024/a.png", 9⟩,
    ⟨"notes.txt", "/s/2024/notes.txt", 7⟩], true⟩

theorem C7_discovery_witness :
    (∀ f, f ∈ get_all_images ciFS
        ↔ f ∈ ciFS.files ∧ matchesImageExt ciFS.caseInsensitive f.name = true)
    ∧ List.Pairwise (fun a b => b.mtime ≤ a.mtime) (get_all_images ciFS)
    ∧ ((get_all_images ciFS).map FSFile.path).Nodup :=
  C7_discovery_amended ciFS (by decide)

end OcrScreenshotSearch
